import Mathlib

/-!
Shallow embedding of the dreamers-ai data-preparation pipeline
(`scenes_split.py`, `long_entries.py`, `dedupe.py`,
`dedupe_and_cap_per_movie.py`, `backfill.py`, `create_train_val.py`,
`script.py`) and proofs about its claims.

Strings are modelled as `List Char`.  External libraries that are not part
of the repository (the HuggingFace tokenizer, `difflib` fuzzy matching, and
the generative-AI endpoint) are modelled as explicit parameters, as noted
at each definition.
-/

namespace DreamersAI

/-! ### Python string primitives -/

/-- The characters Python's `str.strip()` / `\s` treat as whitespace. -/
def pyIsSpace (c : Char) : Bool :=
  c = ' ' || c = '\t' || c = '\n' || c = '\r' || c = '\x0b' || c = '\x0c'

/-- Python `str.strip()`: drop leading and trailing whitespace. -/
def pyStrip (s : List Char) : List Char :=
  ((s.dropWhile pyIsSpace).reverse.dropWhile pyIsSpace).reverse

/-- Python `str.lower()` (ASCII case folding). -/
def pyLower (s : List Char) : List Char := s.map Char.toLower

/-- Python `str.rstrip()`: drop trailing whitespace. -/
def pyRStrip (s : List Char) : List Char :=
  (s.reverse.dropWhile pyIsSpace).reverse

/-- `needle in haystack` on Python strings: substring containment. -/
def strContains (haystack needle : List Char) : Bool :=
  (List.range (haystack.length + 1)).any (fun i => needle.isPrefixOf (haystack.drop i))

/-- Case-insensitive "starts with" (used for `re.IGNORECASE` prefixes). -/
def startsWithCI (prefixStr s : List Char) : Bool :=
  (prefixStr.map Char.toLower).isPrefixOf (s.map Char.toLower)

/-! ### JSON values (the shapes produced by Python's `json` module)

Floating-point literals are not modelled (the pipeline's records only carry
strings, objects and integers); `json_loads` rejects them like any other
unparseable input. -/

inductive Json where
  | null : Json
  | bool : Bool → Json
  | num : Int → Json
  | str : List Char → Json
  | arr : List Json → Json
  | obj : List (List Char × Json) → Json
  deriving Repr

/-- Field lookup on a parsed JSON object: the *last* binding of a key wins,
matching the Python `dict` built by `json.loads` on duplicate keys. -/
def jGet : List (List Char × Json) → List Char → Option Json
  | [], _ => none
  | kv :: fs, k =>
    match jGet fs k with
    | some v => some v
    | none => if kv.1 = k then some kv.2 else none

/-- `obj.get(k)` on a JSON value known to be a dict. -/
def Json.get : Json → List Char → Option Json
  | .obj fs, k => jGet fs k
  | _, _ => none

/-- Python truthiness of a JSON value. -/
def jTruthy : Json → Bool
  | .null => false
  | .bool b => b
  | .num n => n ≠ 0
  | .str s => !s.isEmpty
  | .arr xs => !xs.isEmpty
  | .obj fs => !fs.isEmpty

/-- Python `repr` of a string: single quotes, escaping quote and backslash
(exotic control characters are not escaped, which no claim depends on). -/
def jReprStr (s : List Char) : List Char :=
  '\'' :: (s.flatMap fun c =>
    if c = '\'' then ['\\', '\''] else if c = '\\' then ['\\', '\\'] else [c]) ++ ['\'']

mutual
/-- Python `repr` of a JSON value, used by `str()` on containers. -/
def jRepr : Json → List Char
  | .null => "None".data
  | .bool true => "True".data
  | .bool false => "False".data
  | .num n => (toString n).data
  | .str s => jReprStr s
  | .arr xs => '[' :: jReprList xs ++ [']']
  | .obj fs => '{' :: jReprFields fs ++ ['}']

def jReprList : List Json → List Char
  | [] => []
  | [x] => jRepr x
  | x :: xs => jRepr x ++ ',' :: ' ' :: jReprList xs

def jReprFields : List (List Char × Json) → List Char
  | [] => []
  | [kv] => jReprStr kv.1 ++ ':' :: ' ' :: jRepr kv.2
  | kv :: fs => jReprStr kv.1 ++ ':' :: ' ' :: jRepr kv.2 ++ ',' :: ' ' :: jReprFields fs
end

/-- Python `str()` of a JSON value. -/
def pyStr : Json → List Char
  | .str s => s
  | .null => "None".data
  | .bool true => "True".data
  | .bool false => "False".data
  | .num n => (toString n).data
  | v => jRepr v

/-! ### A JSON parser modelling `json.loads` -/

/-- Skip JSON whitespace. -/
def skipWs (s : List Char) : List Char :=
  s.dropWhile (fun c => c = ' ' || c = '\t' || c = '\n' || c = '\r')

/-- Parse the four hex digits of a `\uXXXX` escape. -/
def hexVal (c : Char) : Option Nat :=
  if '0' ≤ c ∧ c ≤ '9' then some (c.toNat - '0'.toNat)
  else if 'a' ≤ c ∧ c ≤ 'f' then some (c.toNat - 'a'.toNat + 10)
  else if 'A' ≤ c ∧ c ≤ 'F' then some (c.toNat - 'A'.toNat + 10)
  else none

/-- Parse the body of a JSON string literal (after the opening quote). -/
def parseStringRest : List Char → Option (List Char × List Char)
  | [] => none
  | '"' :: r => some ([], r)
  | '\\' :: e :: r =>
    match e with
    | '"' => (parseStringRest r).map (fun p => ('"' :: p.1, p.2))
    | '\\' => (parseStringRest r).map (fun p => ('\\' :: p.1, p.2))
    | '/' => (parseStringRest r).map (fun p => ('/' :: p.1, p.2))
    | 'n' => (parseStringRest r).map (fun p => ('\n' :: p.1, p.2))
    | 't' => (parseStringRest r).map (fun p => ('\t' :: p.1, p.2))
    | 'r' => (parseStringRest r).map (fun p => ('\r' :: p.1, p.2))
    | 'b' => (parseStringRest r).map (fun p => ('\x08' :: p.1, p.2))
    | 'f' => (parseStringRest r).map (fun p => ('\x0c' :: p.1, p.2))
    | 'u' =>
      match r with
      | a :: b :: c :: d :: r' =>
        match hexVal a, hexVal b, hexVal c, hexVal d with
        | some ha, some hb, some hc, some hd =>
          (parseStringRest r').map (fun p =>
            (Char.ofNat (((ha * 16 + hb) * 16 + hc) * 16 + hd) :: p.1, p.2))
        | _, _, _, _ => none
      | _ => none
    | _ => none
  | c :: r => (parseStringRest r).map (fun p => (c :: p.1, p.2))

/-- Parse an integer literal. -/
def parseNum (s : List Char) : Option (Json × List Char) :=
  let (neg, s') := match s with
    | '-' :: r => (true, r)
    | _ => (false, s)
  let digits := s'.takeWhile Char.isDigit
  if digits = [] then none
  else
    let n : Nat := digits.foldl (fun acc c => acc * 10 + (c.toNat - '0'.toNat)) 0
    some (.num (if neg then -(n : Int) else (n : Int)), s'.drop digits.length)

mutual
/-- Fuel-indexed JSON value parser. -/
def parseVal : Nat → List Char → Option (Json × List Char)
  | 0, _ => none
  | fuel + 1, s =>
    match skipWs s with
    | 'n' :: 'u' :: 'l' :: 'l' :: r => some (.null, r)
    | 't' :: 'r' :: 'u' :: 'e' :: r => some (.bool true, r)
    | 'f' :: 'a' :: 'l' :: 's' :: 'e' :: r => some (.bool false, r)
    | '"' :: r => (parseStringRest r).map (fun p => (.str p.1, p.2))
    | '[' :: r =>
      (match skipWs r with
       | ']' :: r' => some (.arr [], r')
       | r' => (parseArrItems fuel r').map (fun p => (.arr p.1, p.2)))
    | '{' :: r =>
      (match skipWs r with
       | '}' :: r' => some (.obj [], r')
       | r' => (parseObjItems fuel r').map (fun p => (.obj p.1, p.2)))
    | s' => parseNum s'

/-- Parse one-or-more comma-separated array items and the closing bracket. -/
def parseArrItems : Nat → List Char → Option (List Json × List Char)
  | 0, _ => none
  | fuel + 1, s =>
    match parseVal fuel s with
    | none => none
    | some (v, r) =>
      match skipWs r with
      | ',' :: r' => (parseArrItems fuel r').map (fun p => (v :: p.1, p.2))
      | ']' :: r' => some ([v], r')
      | _ => none

/-- Parse one-or-more comma-separated object members and the closing brace. -/
def parseObjItems : Nat → List Char → Option (List (List Char × Json) × List Char)
  | 0, _ => none
  | fuel + 1, s =>
    match skipWs s with
    | '"' :: r =>
      match parseStringRest r with
      | none => none
      | some (k, r') =>
        match skipWs r' with
        | ':' :: r'' =>
          match parseVal fuel r'' with
          | none => none
          | some (v, r3) =>
            match skipWs r3 with
            | ',' :: r4 => (parseObjItems fuel r4).map (fun p => ((k, v) :: p.1, p.2))
            | '}' :: r4 => some ([(k, v)], r4)
            | _ => none
        | _ => none
    | _ => none
end

/-- `json.loads`: parse a complete JSON document, requiring only trailing
whitespace after the value. -/
def json_loads (s : List Char) : Option Json :=
  match parseVal (s.length + 1) s with
  | some (v, r) => if skipWs r = [] then some v else none
  | none => none

/-! ### Decidable equality for JSON values -/

mutual
def jsonBeq : Json → Json → Bool
  | .null, .null => true
  | .bool a, .bool b => a == b
  | .num a, .num b => a == b
  | .str a, .str b => a == b
  | .arr a, .arr b => jsonBeqList a b
  | .obj a, .obj b => jsonBeqFields a b
  | _, _ => false

def jsonBeqList : List Json → List Json → Bool
  | [], [] => true
  | x :: xs, y :: ys => jsonBeq x y && jsonBeqList xs ys
  | _, _ => false

def jsonBeqFields : List (List Char × Json) → List (List Char × Json) → Bool
  | [], [] => true
  | kv :: fs, lw :: gs => (kv.1 == lw.1) && jsonBeq kv.2 lw.2 && jsonBeqFields fs gs
  | _, _ => false
end

mutual
def jsonBeqIff : ∀ a b : Json, jsonBeq a b = true ↔ a = b
  | .null, b => by cases b <;> simp [jsonBeq]
  | .bool a, b => by cases b <;> simp [jsonBeq]
  | .num a, b => by cases b <;> simp [jsonBeq]
  | .str a, b => by cases b <;> simp [jsonBeq]
  | .arr xs, b => by
    cases b <;> simp [jsonBeq]
    exact jsonBeqListIff xs _
  | .obj fs, b => by
    cases b <;> simp [jsonBeq]
    exact jsonBeqFieldsIff fs _

def jsonBeqListIff : ∀ xs ys : List Json, jsonBeqList xs ys = true ↔ xs = ys
  | [], [] => by simp [jsonBeqList]
  | [], _ :: _ => by simp [jsonBeqList]
  | _ :: _, [] => by simp [jsonBeqList]
  | x :: xs, y :: ys => by
    simp [jsonBeqList, Bool.and_eq_true, jsonBeqIff x y, jsonBeqListIff xs ys]

def jsonBeqFieldsIff :
    ∀ fs gs : List (List Char × Json), jsonBeqFields fs gs = true ↔ fs = gs
  | [], [] => by simp [jsonBeqFields]
  | [], _ :: _ => by simp [jsonBeqFields]
  | _ :: _, [] => by simp [jsonBeqFields]
  | kv :: fs, lw :: gs => by
    have h2 := jsonBeqIff kv.2 lw.2
    have h3 := jsonBeqFieldsIff fs gs
    cases kv; cases lw
    simp_all [jsonBeqFields, Bool.and_eq_true, and_assoc]
end

instance : DecidableEq Json := fun a b => decidable_of_iff _ (jsonBeqIff a b)

/-! ### `scenes_split.py` -/

/-- Auxiliary for `re.sub(r"\s+", " ", s)`: collapse every whitespace run to
a single space.  The flag records whether the previous character was part of
a whitespace run. -/
def collapseWsAux : Bool → List Char → List Char
  | _, [] => []
  | prevSpace, c :: r =>
    if pyIsSpace c then
      if prevSpace then collapseWsAux true r else ' ' :: collapseWsAux true r
    else c :: collapseWsAux false r

/-- `normalize_title`: lowercase, strip, remove punctuation
(`re.sub(r"[^\w\s]", "", s)`, with `\w` taken as ASCII alphanumeric or
underscore), collapse whitespace runs. -/
def normalize_title (s : List Char) : List Char :=
  let s1 := pyStrip (pyLower s)
  let s2 := s1.filter (fun c => c.isAlphanum || c = '_' || pyIsSpace c)
  collapseWsAux false s2

/-- `re.split(r"[_\-]", t)[0]`: the prefix before the first underscore or
dash. -/
def headBeforeUnderscoreDash (s : List Char) : List Char :=
  s.takeWhile (fun c => c ≠ '_' && c ≠ '-')

/-- `find_best_title_match`.  `difflib.get_close_matches(w, keys, n=1,
cutoff=0.7)` is an external-library call, passed in as the abstract
function `fuzzy` (returning the best close match, if any); the same
function is used at both call sites, which use the same cutoff. -/
def find_best_title_match (fuzzy : List Char → List (List Char) → Option (List Char))
    (filename_title : List Char) (title_keys : List (List Char)) : Option (List Char) :=
  if filename_title ∈ title_keys then some filename_title
  else
    let norm_filename := normalize_title filename_title
    match title_keys.find? (fun k => normalize_title k == norm_filename) with
    | some k => some k
    | none =>
      match fuzzy filename_title title_keys with
      | some c => some c
      | none =>
        let alt := pyStrip (headBeforeUnderscoreDash filename_title)
        if alt ∈ title_keys then some alt
        else
          match fuzzy norm_filename (title_keys.map normalize_title) with
          | some c =>
            match title_keys.find? (fun k => normalize_title k == c) with
            | some k => some k
            | none => none
          | none => none

/-- Does the text start (case-insensitively) with one of the scene-heading
alternatives `INT(?:/EXT)?\.?|EXT(?:/INT)?\.?|INT -|EXT -`?  Since the
optional groups may match the empty string, this is exactly "starts with
INT or EXT". -/
def isHeadingStart (s : List Char) : Bool :=
  startsWithCI "INT".data s || startsWithCI "EXT".data s

/-- Does the zero-width pattern `(?=(?:^|\n)(?:INT...|EXT...))` (with
`re.MULTILINE`) match at this position?  `prev` is the preceding character
(`none` at the start of the string), `suffix` the text from this position. -/
def isSplitHere (prev : Option Char) (suffix : List Char) : Bool :=
  ((prev.isNone || prev == some '\n') && isHeadingStart suffix) ||
  (match suffix with
   | '\n' :: rest => isHeadingStart rest
   | _ => false)

/-- `re.split` on the zero-width scene-heading pattern: a segment boundary is
placed at every position where the lookahead matches (after an empty match
the scan resumes one character later, so adjacent matches all split). -/
def reSplitAux : Option Char → List Char → List Char → List (List Char)
  | _, acc, [] => [acc.reverse]
  | prev, acc, c :: rest =>
    if isSplitHere prev (c :: rest) then
      acc.reverse :: reSplitAux (some c) [c] rest
    else
      reSplitAux (some c) (c :: acc) rest

/-- `split_script_into_scenes`: split on the scene-heading pattern, then
`[s.strip() for s in scenes if s and s.strip()]`. -/
def split_script_into_scenes (script_content : List Char) : List (List Char) :=
  let scenes := reSplitAux none [] script_content
  (scenes.filter (fun s => !s.isEmpty && !(pyStrip s).isEmpty)).map pyStrip

/-- The genre/theme/tone triple embedded in every training input. -/
structure MovieDetailsInput where
  genre : List Char
  theme : List Char
  tone : List Char
  deriving DecidableEq, Repr, Inhabited

/-- The structured content of the `input` field.  The script serialises this
with `json.dumps`, which is injective on these shapes, so the structured
value is exactly what the serialised string embeds. -/
structure SceneInput where
  movie_details : MovieDetailsInput
  previous_scene : List Char
  deriving DecidableEq, Repr, Inhabited

/-- A training example emitted by `scenes_split.py`. -/
structure TrainingExample where
  instruction : List Char
  input : SceneInput
  output : List Char
  deriving DecidableEq, Repr, Inhabited

def instructionText : List Char :=
  ("You are a screenwriter. Given the details of a movie and the content of " ++
   "the preceding scene, write the next scene for the script.").data

/-- A CSV row for one movie: the fields read via
`details.get('Genre'/'Theme'/'Tone', 'N/A')`. -/
structure CsvRow where
  genre : Option (List Char)
  theme : Option (List Char)
  tone : Option (List Char)
  deriving DecidableEq, Repr

def rowDetails (r : CsvRow) : MovieDetailsInput :=
  { genre := r.genre.getD "N/A".data
    theme := r.theme.getD "N/A".data
    tone := r.tone.getD "N/A".data }

/-- The pair-generation loop `for i in range(1, len(scenes))`. -/
def makePairs (details : MovieDetailsInput) (scenes : List (List Char)) :
    List TrainingExample :=
  (List.range' 1 (scenes.length - 1)).map (fun i =>
    { instruction := instructionText
      input := { movie_details := details, previous_scene := scenes.getD (i - 1) [] }
      output := scenes.getD i [] })

/-- Per-file processing of `scenes_split.py`: derive a candidate title from
the filename stem, resolve it against the CSV titles (retrying with the full
stem), read and split the script, and emit consecutive-scene pairs.  A file
whose title cannot be resolved, or which yields fewer than two scenes, emits
nothing.  (A `KeyError` on the details lookup, possible only if `fuzzy`
returns a non-key, would abort the script; it is modelled as emitting
nothing.) -/
def processFile (fuzzy : List Char → List (List Char) → Option (List Char))
    (movieDict : List (List Char × CsvRow)) (fileStem content : List Char) :
    List TrainingExample :=
  let title_keys := movieDict.map Prod.fst
  let candidate_title := pyStrip (headBeforeUnderscoreDash fileStem)
  let match_title :=
    match find_best_title_match fuzzy candidate_title title_keys with
    | some t => some t
    | none => find_best_title_match fuzzy fileStem title_keys
  match match_title with
  | none => []
  | some t =>
    let scenes := split_script_into_scenes content
    if scenes.length < 2 then []
    else
      match movieDict.lookup t with
      | none => []
      | some row => makePairs (rowDetails row) scenes

/-! ### `long_entries.py` -/

/-- The HuggingFace tokenizer is an external library; it is modelled as an
abstract encode/decode pair. -/
structure Tokenizer where
  encode : List Char → List Nat
  decode : List Nat → List Char

/-- `token_length_of` (the `try/except` size-estimate fallback cannot fire
for an abstract total tokenizer and is not modelled). -/
def token_length_of (tok : Tokenizer) (text : List Char) : Nat :=
  (tok.encode text).length

/-- `truncate_output_tokenwise`.  Arithmetic is over `Int`, as in Python,
so a large input can drive `allowed_for_output` negative.  The decode
`try/except` character-truncation fallback cannot fire for a total abstract
decoder and is not modelled. -/
def truncate_output_tokenwise (tok : Tokenizer) (input_text output_text : List Char)
    (max_tokens : Int) : List Char :=
  let input_len : Int := token_length_of tok input_text
  let allowed_for_output : Int := max_tokens - input_len - 1
  if allowed_for_output ≤ 20 then output_text.take 1000
  else
    let out_ids := tok.encode output_text
    if (out_ids.length : Int) ≤ allowed_for_output then output_text
    else tok.decode (out_ids.take allowed_for_output.toNat)

/-- Length of the prefix of a whitespace run that ends at its last newline
(how far the backtracked `\s*\n+` of `\n\s*\n+` reaches). -/
def lastNlPrefixLen (ws : List Char) : Nat :=
  ws.length - (ws.reverse.takeWhile (fun c => c ≠ '\n')).length

/-- `re.split(r'\n\s*\n+', text)`: a match starts at a newline whose
following whitespace run contains another newline, and extends to the last
newline of that run.  The fuel argument only bounds the recursion (each
step consumes at least one character, so any fuel of at least the text's
length gives the exact split). -/
def paraSplitAuxF : Nat → List Char → List Char → List (List Char)
  | 0, acc, s => [acc.reverse ++ s]
  | fuel + 1, acc, s =>
    match s with
    | [] => [acc.reverse]
    | '\n' :: rest =>
      let ws := rest.takeWhile pyIsSpace
      if ws.contains '\n' then
        acc.reverse :: paraSplitAuxF fuel [] (rest.drop (lastNlPrefixLen ws))
      else
        paraSplitAuxF fuel ('\n' :: acc) rest
    | c :: rest => paraSplitAuxF fuel (c :: acc) rest

def paraSplitAux (acc : List Char) (s : List Char) : List (List Char) :=
  paraSplitAuxF (s.length + 1) acc s

/-- `paragraphs(text, min_chars)`: split on blank lines, strip, drop empty
paragraphs, and (when `min_chars` is nonzero) drop paragraphs shorter than
`min_chars`. -/
def paragraphs (text : List Char) (min_chars : Nat) : List (List Char) :=
  let paras := ((paraSplitAux [] text).map pyStrip).filter (fun p => !p.isEmpty)
  if min_chars ≠ 0 then paras.filter (fun p => min_chars ≤ p.length) else paras

/-- A JSONL record at this pipeline stage: `scenes_split.py` emits exactly
the `instruction`/`input`/`output` fields, which are the ones
`long_entries.py` reads and writes. -/
structure Entry where
  instruction : List Char
  input : List Char
  output : List Char
  deriving DecidableEq, Repr

/-- Processing of one parsed entry in the second pass of `long_entries.py`
(the `--make_prev_para` flag, which is off by default, is not modelled):
within budget → written unchanged; over budget with at least two qualifying
paragraphs → one sub-example per paragraph; otherwise token-wise
truncation of the output. -/
def processEntry (tok : Tokenizer) (max_tokens : Int) (min_para_chars : Nat)
    (e : Entry) : List Entry :=
  let combined_text := e.input ++ '\n' :: e.output
  let tlen : Int := token_length_of tok combined_text
  if tlen ≤ max_tokens then [e]
  else
    let paras := paragraphs e.output min_para_chars
    if 2 ≤ paras.length then
      paras.map (fun p => { instruction := e.instruction, input := e.input, output := p })
    else
      [{ e with output := truncate_output_tokenwise tok e.input e.output max_tokens }]

/-- The whole second pass: each parsed entry contributes its processed
records, in input order. -/
def runLongEntries (tok : Tokenizer) (max_tokens : Int) (min_para_chars : Nat)
    (entries : List Entry) : List Entry :=
  entries.flatMap (processEntry tok max_tokens min_para_chars)

/-- A concrete well-behaved tokenizer (one token per character), used to
instantiate the abstract tokenizer in concrete runs. -/
def charTok : Tokenizer :=
  { encode := fun s => s.map Char.toNat
    decode := fun ids => ids.map Char.ofNat }

/-! ### `dedupe.py` and `dedupe_and_cap_per_movie.py` -/

/-- The `sig` functions of both dedupe scripts hash
`inp[:n] + "||" + out[:n]` with SHA-256 (`n` is 300 in `dedupe.py` and 400
in `dedupe_and_cap_per_movie.py`).  The hash is modelled by its preimage;
SHA-256 collisions are modelled as impossible. -/
def sig (n : Nat) (inp out : List Char) : List Char :=
  inp.take n ++ "||".data ++ out.take n

/-- `obj.get(k, default)` followed by use as a string: returns the string
value, the default when the key is absent, and `none` for the `TypeError`
that string operations would raise on a non-string value (or for `.get` on
a non-dict). -/
def getStrOr (obj : Json) (k dflt : List Char) : Option (List Char) :=
  match obj with
  | .obj fs =>
    match jGet fs k with
    | none => some dflt
    | some (.str s) => some s
    | some _ => none
  | _ => none

/-- The movie-key heuristic of `dedupe.py`: parse the `input` JSON and take
the first truthy of `movie_details.title`, `.movie`, `.genre`; any
exception (unparseable input, non-dict levels) leaves `movie = "UNKNOWN"`.
The key keeps the raw JSON value, as the Python does. -/
def dedupeMovieKey (inp : List Char) : Json :=
  match json_loads inp with
  | some (.obj fs) =>
    match (jGet fs "movie_details".data).getD (.obj []) with
    | .obj mfs =>
      let t := (jGet mfs "title".data).getD .null
      let m := (jGet mfs "movie".data).getD .null
      let g := (jGet mfs "genre".data).getD .null
      if jTruthy t then t
      else if jTruthy m then m
      else if jTruthy g then g
      else .str "UNKNOWN".data
    | _ => .str "UNKNOWN".data
  | _ => .str "UNKNOWN".data

/-- What happened to one record of a dedupe run. -/
inductive Disposition where
  | written : Disposition
  | dupSkip : Disposition
  | capSkip : Disposition
  | crashed : Disposition
  deriving DecidableEq, Repr

/-- State of a dedupe run: signatures seen (only of *written* records),
per-key counts, records written so far, and whether the script has crashed
(an uncaught `TypeError` stops the whole script, so nothing further is
written). -/
structure CapState (κ : Type) where
  seen : List (List Char)
  counts : κ → Nat
  written : List Json
  crashed : Bool

def initCapState (κ : Type) : CapState κ :=
  { seen := [], counts := fun _ => 0, written := [], crashed := false }

/-- One loop iteration shared by both dedupe scripts: duplicate check
first, then the per-key cap check, then write.  `keyFn` extracts the
per-movie key (it is only consulted on records whose `input`/`output`
extract as strings, so its value elsewhere is irrelevant). -/
def capStep {κ : Type} [DecidableEq κ] (sigN : Nat) (keyFn : Json → κ) (cap : Nat)
    (st : CapState κ) (obj : Json) : CapState κ × Disposition :=
  if st.crashed then (st, .crashed)
  else
    match getStrOr obj "input".data [], getStrOr obj "output".data [] with
    | some inp, some out =>
      let h := sig sigN inp out
      if h ∈ st.seen then (st, .dupSkip)
      else
        let key := keyFn obj
        if cap ≤ st.counts key then (st, .capSkip)
        else ({ seen := h :: st.seen
                counts := fun k => if k = key then st.counts key + 1 else st.counts k
                written := st.written ++ [obj]
                crashed := false }, .written)
    | _, _ => ({ st with crashed := true }, .crashed)

def capRun {κ : Type} [DecidableEq κ] (sigN : Nat) (keyFn : Json → κ) (cap : Nat)
    (objs : List Json) : CapState κ :=
  objs.foldl (fun st obj => (capStep sigN keyFn cap st obj).1) (initCapState κ)

/-- The signature a dedupe run computes for a record (none when the record
would crash the script). -/
def recordSig (sigN : Nat) (w : Json) : Option (List Char) :=
  match getStrOr w "input".data [], getStrOr w "output".data [] with
  | some wi, some wo => some (sig sigN wi wo)
  | _, _ => none

/-- Invariant: the `seen` set holds exactly the signatures of the written
records. -/
def SeenInv {κ : Type} (sigN : Nat) (st : CapState κ) : Prop :=
  ∀ s, s ∈ st.seen ↔ ∃ w ∈ st.written, recordSig sigN w = some s

/-- Number of written records carrying a given movie key. -/
def keyCount {κ : Type} [DecidableEq κ] (keyFn : Json → κ) (k : κ) (ws : List Json) : Nat :=
  ws.countP (fun w => decide (keyFn w = k))

/-- Invariant: the counter equals the number of written records per key. -/
def CntInv {κ : Type} [DecidableEq κ] (keyFn : Json → κ) (st : CapState κ) : Prop :=
  ∀ k, st.counts k = keyCount keyFn k st.written

/-- Invariant: no counter exceeds the cap. -/
def CapLeInv {κ : Type} (cap : Nat) (st : CapState κ) : Prop :=
  ∀ k, st.counts k ≤ cap

/-- The key function of `dedupe.py`, lifted to the record (it reads only the
`input` string; the default is never consulted, since a non-string `input`
crashes before the key is computed). -/
def dedupeKeyFn (obj : Json) : Json :=
  dedupeMovieKey ((getStrOr obj "input".data []).getD [])

/-! #### `extract_movie_key` of `dedupe_and_cap_per_movie.py` -/

/-- Python `k in v` for a string `k`: key membership on dicts, element
membership on lists, substring test on strings; `TypeError` otherwise. -/
def pyInStr (k : List Char) : Json → Except Unit Bool
  | .obj fs => .ok (jGet fs k).isSome
  | .arr xs => .ok (xs.any (fun v => jsonBeq v (.str k)))
  | .str s => .ok (strContains s k)
  | _ => .error ()

/-- Python `v[k]` for a string `k`: field access on dicts (`KeyError` when
absent), `TypeError` otherwise. -/
def pyIndexStr (k : List Char) : Json → Except Unit Json
  | .obj fs =>
    match jGet fs k with
    | some v => .ok v
    | none => .error ()
  | _ => .error ()

/-- The loop `for k in keys: if k in parsed and parsed[k]: return ...`,
over an arbitrary parsed JSON value, with exception propagation. -/
def firstTruthyKeyE (j : Json) : List (List Char) → Except Unit (Option Json)
  | [] => .ok none
  | k :: ks => do
    let b ← pyInStr k j
    if b then
      let v ← pyIndexStr k j
      if jTruthy v then pure (some v) else firstTruthyKeyE j ks
    else firstTruthyKeyE j ks

/-- The same loop over a known dict (no exception possible). -/
def firstTruthyField (fs : List (List Char × Json)) : List (List Char) → Option Json
  | [] => none
  | k :: ks =>
    match jGet fs k with
    | some v => if jTruthy v then some v else firstTruthyField fs ks
    | none => firstTruthyField fs ks

/-- The first `try` block of `extract_movie_key` over the parsed `input`
string: `some key` when the block returns, `none` when it raises or falls
through. -/
def parsedBlock (inp : List Char) : Option (List Char) :=
  match json_loads inp with
  | none => none
  | some parsed =>
    match firstTruthyKeyE parsed
        ["movie_title".data, "title".data, "MovieTitle".data, "movie".data,
         "source_file".data] with
    | .error _ => none
    | .ok (some v) => some (pyStrip (pyStr v))
    | .ok none =>
      let md := match parsed with
        | .obj fs => jGet fs "movie_details".data
        | _ => none
      match md with
      | some (.obj mfs) =>
        match firstTruthyField mfs ["title".data, "movie_title".data, "name".data] with
        | some v => some (pyStrip (pyStr v))
        | none =>
          let g := (jGet mfs "genre".data).getD .null
          let t := (jGet mfs "tone".data).getD .null
          if jTruthy g && jTruthy t then
            some ("__GENRE_".data ++ pyStr g ++ "__TONE_".data ++ pyStr t)
          else if jTruthy g then
            some ("__GENRE_".data ++ pyStr g)
          else none
      | _ => none

/-- The second `try` block (genre-only fallback): re-parse the `input`
string when it looks like an object, and use `movie_details.genre` if
truthy. -/
def genreFallback (obj : Json) : Option (List Char) :=
  match obj with
  | .obj fs =>
    match (jGet fs "input".data).getD (.str []) with
    | .str s =>
      if (pyStrip s).take 1 = ['{'] then
        match json_loads s with
        | some parsed =>
          if jTruthy parsed then
            match parsed with
            | .obj pfs =>
              match (jGet pfs "movie_details".data).getD (.obj []) with
              | .obj mfs =>
                let g := (jGet mfs "genre".data).getD .null
                if jTruthy g then some ("__GENRE_".data ++ pyStr g) else none
              | _ => none
            | _ => none
          else none
        | none => none
      else none
    | _ => none
  | _ => none

/-- `extract_movie_key`: direct identifier fields in order, then fields of
the parsed `input` JSON, then `movie_details` fields and genre/tone
fallbacks, then the genre-only fallback, then `"UNKNOWN_MOVIE"`. -/
def extract_movie_key (obj : Json) : List Char :=
  match obj with
  | .obj fs =>
    match firstTruthyField fs
        ["source_file".data, "movie_title".data, "title".data, "MovieTitle".data,
         "movie".data] with
    | some v => pyStrip (pyStr v)
    | none =>
      let fromInput := match jGet fs "input".data with
        | some (.str s) => parsedBlock s
        | _ => none
      match fromInput with
      | some k => k
      | none => (genreFallback obj).getD "UNKNOWN_MOVIE".data
  | _ => (genreFallback obj).getD "UNKNOWN_MOVIE".data

/-- The key function of `dedupe_and_cap_per_movie.py`:
`extract_movie_key(obj).strip()`. -/
def perMovieKeyFn (obj : Json) : List Char :=
  pyStrip (extract_movie_key obj)

/-- The per-movie cap of both dedupe scripts. -/
def CAP : Nat := 1000

/-- The record-processing loop of `dedupe.py` (its input is read with a bare
`json.loads(line)`, so it is given the parsed records). -/
def dedupeRun (objs : List Json) : CapState Json :=
  capRun 300 dedupeKeyFn CAP objs

/-- The record-processing loop of `dedupe_and_cap_per_movie.py`, over parsed
records (blank and malformed lines are skipped by its reader and never
reach the loop body). -/
def perMovieRun (objs : List Json) : CapState (List Char) :=
  capRun 400 perMovieKeyFn CAP objs

/-! ### `json.dumps` (ensure_ascii=False) -/

/-- JSON string escaping as `json.dumps(..., ensure_ascii=False)` performs
it: quote, backslash and the common control characters. -/
def jsonEscape (s : List Char) : List Char :=
  s.flatMap fun c =>
    if c = '"' then ['\\', '"']
    else if c = '\\' then ['\\', '\\']
    else if c = '\n' then ['\\', 'n']
    else if c = '\t' then ['\\', 't']
    else if c = '\r' then ['\\', 'r']
    else if c = '\x08' then ['\\', 'b']
    else if c = '\x0c' then ['\\', 'f']
    else [c]

mutual
/-- `json.dumps(v, ensure_ascii=False)` with the default separators. -/
def json_dumps : Json → List Char
  | .null => "null".data
  | .bool true => "true".data
  | .bool false => "false".data
  | .num n => (toString n).data
  | .str s => '"' :: jsonEscape s ++ ['"']
  | .arr xs => '[' :: jsonDumpsList xs ++ [']']
  | .obj fs => '\x7b' :: jsonDumpsFields fs ++ ['\x7d']

def jsonDumpsList : List Json → List Char
  | [] => []
  | [x] => json_dumps x
  | x :: xs => json_dumps x ++ ',' :: ' ' :: jsonDumpsList xs

def jsonDumpsFields : List (List Char × Json) → List Char
  | [] => []
  | [kv] => '"' :: jsonEscape kv.1 ++ '"' :: ':' :: ' ' :: json_dumps kv.2
  | kv :: fs =>
    '"' :: jsonEscape kv.1 ++ '"' :: ':' :: ' ' :: json_dumps kv.2 ++
      ',' :: ' ' :: jsonDumpsFields fs
end

/-- Python dict assignment `d[k] = v` on a parsed object: replace the value
in place when the key is present, append otherwise. -/
def setField (fs : List (List Char × Json)) (k : List Char) (v : Json) :
    List (List Char × Json) :=
  if fs.any (fun kv => kv.1 = k) then
    fs.map (fun kv => if kv.1 = k then (k, v) else kv)
  else fs ++ [(k, v)]

/-- `d[k] = v` on a JSON value known to be a dict. -/
def jSet : Json → List Char → Json → Json
  | .obj fs, k, v => .obj (setField fs k v)
  | j, _, _ => j

/-! ### `backfill.py` -/

/-- `os.path.splitext(f)[0]`: the filename without its last extension. -/
def splitextStem (f : List Char) : List Char :=
  let revExt := f.reverse.takeWhile (fun c => c ≠ '.')
  if revExt.length = f.length then f
  else (f.reverse.drop (revExt.length + 1)).reverse

/-- `find_file_by_substring`: first raw file whose (lowercased, as loaded)
content contains the lowercased substring; otherwise a `difflib` fuzzy
match of `substr[:50]` against the file *names*, modelled by the abstract
`fuzzy` parameter. -/
def find_file_by_substring (fuzzy : List Char → List (List Char) → Option (List Char))
    (fileTexts : List (List Char × List Char)) (substr : List Char) :
    Option (List Char) :=
  let s := pyLower substr
  match fileTexts.find? (fun ft => strContains ft.2 s) with
  | some ft => some ft.1
  | none => fuzzy (substr.take 50) (fileTexts.map Prod.fst)

/-- `inject_source`: unconditionally set the top-level `source_file`, and
additionally inject `movie_title` (the filename stem) into the `input`
JSON when that parses to a dict lacking a truthy `movie_title`; when the
`input` string does not parse, prefix a small JSON header instead.
Returns `none` for the uncaught `TypeError` of concatenating the header
with a non-string `input` value (which crashes the script). -/
def inject_source (obj : Json) (fname : List Char) : Option Json :=
  let obj1 := jSet obj "source_file".data (.str fname)
  let inpVal := (obj1.get "input".data).getD (.str [])
  match inpVal with
  | .str s =>
    match json_loads s with
    | some (.obj pfs) =>
      if jTruthy ((jGet pfs "movie_title".data).getD .null) then some obj1
      else
        let pfs' := setField pfs "movie_title".data (.str (splitextStem fname))
        some (jSet obj1 "input".data (.str (json_dumps (.obj pfs'))))
    | some _ => some obj1
    | none =>
      let header := "\x7b\"movie_title\":\"".data ++ splitextStem fname ++
        "\", \"previous_scene\":\"\"\x7d".data
      some (jSet obj1 "input".data (.str (header ++ s)))
  | _ => none

/-- State of the `backfill.py` main loop. -/
structure BackfillState where
  out : List Json
  crashed : Bool

/-- One line of the `backfill.py` main loop: malformed lines are skipped;
entries with blank output are written unchanged; otherwise the first 120
characters (`--substr_len`) of the stripped output are searched for in the
raw corpus, and a located entry is rewritten by `inject_source`.  A
non-string `output` (or non-dict record) raises an uncaught exception and
stops the script. -/
def backfillStep (fuzzy : List Char → List (List Char) → Option (List Char))
    (fileTexts : List (List Char × List Char)) (substrLen : Nat)
    (st : BackfillState) (line : List Char) : BackfillState :=
  if st.crashed then st
  else
    match json_loads line with
    | none => st
    | some obj =>
      match obj with
      | .obj fs =>
        match (jGet fs "output".data).getD (.str []) with
        | .str outtext =>
          if (pyStrip outtext).isEmpty then { st with out := st.out ++ [obj] }
          else
            let cand := (pyStrip outtext).take substrLen
            match find_file_by_substring fuzzy fileTexts cand with
            | some fname =>
              match inject_source obj fname with
              | some obj' => { st with out := st.out ++ [obj'] }
              | none => { st with crashed := true }
            | none => { st with out := st.out ++ [obj] }
        | _ => { st with crashed := true }
      | _ => { st with crashed := true }

def backfillRun (fuzzy : List Char → List (List Char) → Option (List Char))
    (fileTexts : List (List Char × List Char)) (substrLen : Nat)
    (lines : List (List Char)) : BackfillState :=
  lines.foldl (backfillStep fuzzy fileTexts substrLen) { out := [], crashed := false }

/-! ### `create_train_val.py` -/

/-- The stop marker appended to every written output. -/
def STOP : List Char := "\n<|end_of_scene|>".data

/-- `line.rstrip("\n")`. -/
def pyRStripNl (s : List Char) : List Char :=
  (s.reverse.dropWhile (fun c => c = '\n')).reverse

/-- State of the split-writing loop. -/
structure TrainValState where
  train : List Json
  val : List Json
  idx : Nat
  crashed : Bool

/-- One line of the split-writing loop of `create_train_val.py`: blank and
malformed lines are skipped (but still consume an index), the stop marker
is appended to the rstripped output, and the line goes to the validation
file exactly when its index is in the sampled index set.  `valIdx` is the
seeded-shuffle sample; modelled from the spec: the deterministic
`random.Random(SEED).shuffle` index sample is an opaque set here.  A
non-string `output` raises an uncaught exception and stops the script. -/
def trainValStep (valIdx : Nat → Bool) (st : TrainValState) (line : List Char) :
    TrainValState :=
  if st.crashed then st
  else
    let i := st.idx
    let st := { st with idx := i + 1 }
    if (pyRStripNl line).isEmpty then st
    else
      match json_loads (pyRStripNl line) with
      | none => st
      | some obj =>
        match obj with
        | .obj fs =>
          match (jGet fs "output".data).getD (.str []) with
          | .str out =>
            let obj' := jSet obj "output".data (.str (pyRStrip out ++ STOP))
            if valIdx i then { st with val := st.val ++ [obj'] }
            else { st with train := st.train ++ [obj'] }
          | _ => { st with crashed := true }
        | _ => { st with crashed := true }

def trainValRun (valIdx : Nat → Bool) (lines : List (List Char)) : TrainValState :=
  lines.foldl (trainValStep valIdx) { train := [], val := [], idx := 0, crashed := false }

/-- Observer: the `output` field of a record, when it is a string. -/
def outputField (j : Json) : Option (List Char) :=
  match j.get "output".data with
  | some (.str s) => some s
  | _ => none

/-! ### `script.py` -/

/-- `s.replace(pat, "")`: remove every non-overlapping occurrence of `pat`,
scanning left to right.  The fuel argument only bounds the recursion (each
step consumes at least one character, so any fuel of at least the string's
length gives the exact replacement). -/
def removeAllF : Nat → List Char → List Char → List Char
  | 0, _, s => s
  | fuel + 1, pat, s =>
    if pat.isEmpty then s
    else
      match s with
      | [] => []
      | c :: r =>
        if pat.isPrefixOf (c :: r) then removeAllF fuel pat ((c :: r).drop pat.length)
        else c :: removeAllF fuel pat r

def removeAll (pat : List Char) (s : List Char) : List Char :=
  removeAllF (s.length + 1) pat s

/-- Python `int(s)` on a string: strip whitespace, optional sign, one or
more digits. -/
def pyIntOfStr (s : List Char) : Option Int :=
  let t := pyStrip s
  let (neg, d) := match t with
    | '-' :: r => (true, r)
    | '+' :: r => (false, r)
    | _ => (false, t)
  if d.isEmpty || !d.all Char.isDigit then none
  else
    let n : Nat := d.foldl (fun acc c => acc * 10 + (c.toNat - '0'.toNat)) 0
    some (if neg then -(n : Int) else (n : Int))

/-- Python `int(v)` on a JSON value: ints pass through, bools are 0/1,
numeric strings are parsed, anything else raises (`none`). -/
def int_of : Json → Option Int
  | .num n => some n
  | .bool b => some (if b then 1 else 0)
  | .str s => pyIntOfStr s
  | _ => none

/-- The flexible runtime extraction
`for key in ['runtime_minutes', 'length_minutes', 'runtime']: ...`:
the first present key is converted with `int` (whose failure raises,
aborting the file: `none`); when no key is present the length stays 0. -/
def lengthExtract (fs : List (List Char × Json)) : Option Int :=
  match jGet fs "runtime_minutes".data with
  | some v => int_of v
  | none =>
    match jGet fs "length_minutes".data with
    | some v => int_of v
    | none =>
      match jGet fs "runtime".data with
      | some v => int_of v
      | none => some 0

/-- A row appended to `dataset.csv`: MovieTitle, Genre, Theme, Tone,
Length (csv.writer stringifies each value). -/
structure OutRow where
  title : List Char
  genre : List Char
  theme : List Char
  tone : List Char
  length : Int
  deriving DecidableEq, Repr

/-- One query attempt of `script.py` for a derived title: `respond` is the
generative-AI endpoint (external; modelled from the spec as an abstract
response text, `none` for an API exception).  The response is stripped,
fenced-code markers are removed, and the JSON is parsed; any failure along
the way is the `except` path (`none` = no row). -/
def attempt (respond : List Char → Option (List Char)) (title : List Char) :
    Option OutRow :=
  match respond title with
  | none => none
  | some txt =>
    let response_text := removeAll "```".data (removeAll "```json".data (pyStrip txt))
    match json_loads response_text with
    | some (.obj fs) =>
      match lengthExtract fs with
      | none => none
      | some len =>
        some { title := title
               genre := pyStr ((jGet fs "genre".data).getD (.str "N/A".data))
               theme := pyStr ((jGet fs "theme".data).getD (.str "N/A".data))
               tone := pyStr ((jGet fs "tone".data).getD (.str "N/A".data))
               length := len }
    | some _ => none
    | none => none

/-- State of the `script.py` per-file loop: titles already processed, rows
appended so far, titles that were actually sent to the model. -/
structure ScriptState where
  processed : List (List Char)
  rows : List OutRow
  queried : List (List Char)

/-- The derived movie title of a raw script file: the filename stem up to
the first underscore (`os.path.splitext(f)[0].split("_")[0]`). -/
def derivedTitle (fileName : List Char) : List Char :=
  (splitextStem fileName).takeWhile (fun c => c ≠ '_')

/-- One iteration of the `script.py` per-file loop: already-processed
titles are skipped without a query; otherwise the model is queried and, on
success, exactly one row is appended and the title marked processed. -/
def scriptStep (respond : List Char → Option (List Char)) (st : ScriptState)
    (fileName : List Char) : ScriptState :=
  let movie_title := derivedTitle fileName
  if movie_title ∈ st.processed then st
  else
    let st' := { st with queried := st.queried ++ [movie_title] }
    match attempt respond movie_title with
    | none => st'
    | some row =>
      { st' with rows := st'.rows ++ [row], processed := st'.processed ++ [movie_title] }

/-- The whole `script.py` loop over the raw script files, starting from the
titles already present in the first CSV column. -/
def runScript (respond : List Char → Option (List Char))
    (initialProcessed : List (List Char)) (files : List (List Char)) : ScriptState :=
  files.foldl (scriptStep respond)
    { processed := initialProcessed, rows := [], queried := [] }

/-! ## Theorems about the claims -/

/-- C6: every entry whose combined input+output token count is within the
`max_tokens` budget is written to the output unchanged (same instruction,
input and output fields) and exactly once: it contributes exactly its own
single copy, in position, to the output of the second pass. -/
theorem C6_within_budget_written_unchanged (tok : Tokenizer) (max_tokens : Int)
    (min_para_chars : Nat) (e : Entry)
    (h : (token_length_of tok (e.input ++ '\n' :: e.output) : Int) ≤ max_tokens) :
    processEntry tok max_tokens min_para_chars e = [e] ∧
    ∀ pre post : List Entry,
      runLongEntries tok max_tokens min_para_chars (pre ++ e :: post) =
        runLongEntries tok max_tokens min_para_chars pre ++
          e :: runLongEntries tok max_tokens min_para_chars post := by
  have h1 : processEntry tok max_tokens min_para_chars e = [e] := by
    simp only [processEntry]
    rw [if_pos h]
  refine ⟨h1, fun pre post => ?_⟩
  show (pre ++ e :: post).flatMap _ = _
  rw [show e :: post = [e] ++ post from rfl, List.flatMap_append, List.flatMap_append]
  simp [runLongEntries, h1]

theorem C6_witness :
    processEntry charTok 100 80
        { instruction := "i".data, input := "ab".data, output := "xy".data } =
      [{ instruction := "i".data, input := "ab".data, output := "xy".data }] :=
  (C6_within_budget_written_unchanged charTok 100 80 _ (by decide)).1

/-- C7: `find_best_title_match` tries exact match first, then normalized
match, then fuzzy matching: a title that is itself a CSV key is returned;
when there is no exact match, a normalized match is returned no matter what
the fuzzy matcher would say; and `none` comes back only when the exact,
normalized and both fuzzy strategies (and the split-prefix retry) all fail.
`fuzzy` models `difflib.get_close_matches(..., n=1)`, which only returns
elements of its candidate list (hypothesis `hf`). -/
theorem C7_title_match_strategy_order
    (fuzzy : List Char → List (List Char) → Option (List Char))
    (hf : ∀ w cands r, fuzzy w cands = some r → r ∈ cands)
    (t : List Char) (keys : List (List Char)) :
    (t ∈ keys → find_best_title_match fuzzy t keys = some t) ∧
    (t ∉ keys → (∃ k ∈ keys, normalize_title k = normalize_title t) →
      ∃ k0 ∈ keys, normalize_title k0 = normalize_title t ∧
        ∀ f' : List Char → List (List Char) → Option (List Char),
          find_best_title_match f' t keys = some k0) ∧
    (find_best_title_match fuzzy t keys = none →
      t ∉ keys ∧ (∀ k ∈ keys, normalize_title k ≠ normalize_title t) ∧
      fuzzy t keys = none ∧
      pyStrip (headBeforeUnderscoreDash t) ∉ keys ∧
      fuzzy (normalize_title t) (keys.map normalize_title) = none) := by
  refine ⟨fun ht => by simp [find_best_title_match, ht], ?_, ?_⟩
  · intro hnt hex
    have hsome : (keys.find? (fun k => normalize_title k == normalize_title t)).isSome := by
      rw [List.find?_isSome]
      obtain ⟨k, hk, he⟩ := hex
      exact ⟨k, hk, by simp [he]⟩
    obtain ⟨k0, hk0⟩ := Option.isSome_iff_exists.mp hsome
    have hp := List.find?_some hk0
    refine ⟨k0, List.mem_of_find?_eq_some hk0, by simpa using hp, fun f' => ?_⟩
    simp [find_best_title_match, hnt, hk0]
  · intro hres
    by_cases h1 : t ∈ keys
    · simp [find_best_title_match, h1] at hres
    refine ⟨h1, ?_, ?_, ?_, ?_⟩ <;>
      [skip; skip; skip; skip] <;>
      revert hres <;>
      simp only [find_best_title_match, if_neg h1]
    · cases h2 : keys.find? (fun k => normalize_title k == normalize_title t) with
      | some k => intro hres; simp at hres
      | none =>
        intro _
        intro k hk he
        have := List.find?_eq_none.mp h2 k hk
        simp [he] at this
    · cases h2 : keys.find? (fun k => normalize_title k == normalize_title t) with
      | some k => intro hres; simp at hres
      | none =>
        cases h3 : fuzzy t keys with
        | some c => intro hres; simp at hres
        | none => intro _; rfl
    · cases h2 : keys.find? (fun k => normalize_title k == normalize_title t) with
      | some k => intro hres; simp at hres
      | none =>
        cases h3 : fuzzy t keys with
        | some c => intro hres; simp at hres
        | none =>
          by_cases h4 : pyStrip (headBeforeUnderscoreDash t) ∈ keys
          · intro hres; simp [h4] at hres
          · intro _; exact h4
    · cases h2 : keys.find? (fun k => normalize_title k == normalize_title t) with
      | some k => intro hres; simp at hres
      | none =>
        cases h3 : fuzzy t keys with
        | some c => intro hres; simp at hres
        | none =>
          by_cases h4 : pyStrip (headBeforeUnderscoreDash t) ∈ keys
          · intro hres; simp [h4] at hres
          · cases h5 : fuzzy (normalize_title t) (keys.map normalize_title) with
            | none => intro _; rfl
            | some c =>
              intro hres
              exfalso
              have hc := hf _ _ _ h5
              obtain ⟨k, hk, hke⟩ := List.mem_map.mp hc
              have : (keys.find? (fun x => normalize_title x == c)).isSome := by
                rw [List.find?_isSome]
                exact ⟨k, hk, by simp [hke]⟩
              obtain ⟨k1, hk1⟩ := Option.isSome_iff_exists.mp this
              simp [h4, hk1] at hres

theorem C7_witness :
    find_best_title_match (fun _ _ => none) "Alien".data
        ["Alien".data, "Blade Runner".data] = some "Alien".data :=
  (C7_title_match_strategy_order (fun _ _ => none) (by intro w c r h; cases h)
    "Alien".data ["Alien".data, "Blade Runner".data]).1 (by decide)

/-! Helper lemmas about `makePairs`. -/

theorem makePairs_length (d : MovieDetailsInput) (scenes : List (List Char)) :
    (makePairs d scenes).length = scenes.length - 1 := by
  simp [makePairs]

theorem makePairs_getD (d : MovieDetailsInput) (scenes : List (List Char)) (i : Nat)
    (h1 : 1 ≤ i) (h2 : i ≤ scenes.length - 1) :
    (makePairs d scenes).getD (i - 1) default =
      { instruction := instructionText
        input := { movie_details := d, previous_scene := scenes.getD (i - 1) [] }
        output := scenes.getD i [] } := by
  have hlt : i - 1 < scenes.length - 1 := by omega
  have hidx : (List.range' 1 (scenes.length - 1))[i-1]? = some (1 + 1 * (i - 1)) :=
    List.getElem?_range' 1 1 hlt
  have hi : 1 + 1 * (i - 1) = i := by omega
  rw [hi] at hidx
  simp [makePairs, List.getD_eq_getElem?_getD, hidx]

/-- A CSV table and a script that the C1 claim quantifier reaches but the
program skips: the filename resolves to no CSV title, so although the
content splits into two scenes, zero (not one) training examples are
emitted. -/
def c1Dict : List (List Char × CsvRow) :=
  [("Alien".data, { genre := some "G".data, theme := some "T".data, tone := some "N".data })]

def c1Content : List Char := "INT. A\nx\nEXT. B\ny".data

/-- C1 counterexample: a script file whose content splits into `n = 2`
scenes but whose filename matches no CSV row emits `0 ≠ n - 1` training
examples. -/
theorem C1_counterexample :
    (split_script_into_scenes c1Content).length = 2 ∧
    processFile (fun _ _ => none) c1Dict "ZZZZ".data c1Content = [] := by
  decide

/-- C1 (amended): for every script file *whose filename resolves to a CSV
row* and whose content splits into `n ≥ 2` scenes, `scenes_split.py` emits
exactly `n - 1` training examples, and for every `i` from 1 to `n - 1` the
`i`-th example's input embeds the movie's genre/theme/tone metadata and
`previous_scene =` scene `i-1`, its output is scene `i`, and the examples
are written in scene order. -/
theorem C1_amended_consecutive_pairs
    (fuzzy : List Char → List (List Char) → Option (List Char))
    (movieDict : List (List Char × CsvRow)) (fileStem content : List Char)
    (t : List Char) (row : CsvRow) (n : Nat)
    (hn : (split_script_into_scenes content).length = n) (h2 : 2 ≤ n)
    (ht : (match find_best_title_match fuzzy (pyStrip (headBeforeUnderscoreDash fileStem))
              (movieDict.map Prod.fst) with
           | some t' => some t'
           | none => find_best_title_match fuzzy fileStem (movieDict.map Prod.fst)) = some t)
    (hrow : movieDict.lookup t = some row) :
    (processFile fuzzy movieDict fileStem content).length = n - 1 ∧
    ∀ i, 1 ≤ i → i ≤ n - 1 →
      (processFile fuzzy movieDict fileStem content).getD (i - 1) default =
        { instruction := instructionText
          input := { movie_details := rowDetails row
                     previous_scene := (split_script_into_scenes content).getD (i - 1) [] }
          output := (split_script_into_scenes content).getD i [] } := by
  have hpf : processFile fuzzy movieDict fileStem content =
      makePairs (rowDetails row) (split_script_into_scenes content) := by
    simp only [processFile]
    rw [ht]
    dsimp only
    rw [if_neg (by omega : ¬ (split_script_into_scenes content).length < 2), hrow]
  refine ⟨by rw [hpf, makePairs_length, hn], fun i hi1 hi2 => ?_⟩
  rw [hpf, makePairs_getD _ _ i hi1 (by omega)]

theorem C1_witness :
    (processFile (fun _ _ => none) c1Dict "Alien".data c1Content).length = 1 ∧
    (processFile (fun _ _ => none) c1Dict "Alien".data c1Content).getD 0 default =
      { instruction := instructionText
        input := { movie_details := { genre := "G".data, theme := "T".data, tone := "N".data }
                   previous_scene := "INT. A\nx".data }
        output := "EXT. B\ny".data } := by
  have h := C1_amended_consecutive_pairs (fun _ _ => none) c1Dict "Alien".data c1Content
    "Alien".data { genre := some "G".data, theme := some "T".data, tone := some "N".data }
    2 (by decide) (by decide) (by decide) (by decide)
  exact ⟨h.1, (h.2 1 (by decide) (by decide)).trans (by decide)⟩

/-! Helper lemmas about the concrete one-token-per-character tokenizer. -/

theorem charTok_additive (a b : List Char) :
    charTok.encode (a ++ b) = charTok.encode a ++ charTok.encode b := by
  simp [charTok]

theorem charTok_roundtrip (s : List Char) (l : List Nat) (h : l <+: charTok.encode s) :
    charTok.encode (charTok.decode l) = l := by
  have hsub : ∀ x ∈ l, x ∈ s.map Char.toNat := fun x hx => h.subset hx
  show (l.map Char.ofNat).map Char.toNat = l
  rw [List.map_map]
  have hid : ∀ x ∈ l, (Char.toNat ∘ Char.ofNat) x = x := by
    intro x hx
    obtain ⟨c, _, rfl⟩ := List.mem_map.mp (hsub x hx)
    simp [Char.ofNat_toNat]
  rw [List.map_congr_left hid]
  simp

/-- An over-budget entry (40 input tokens against a 30-token budget, output
a single long paragraph) that the truncation fallback leaves over budget:
`allowed_for_output` is negative, so the output is kept as a 1000-character
prefix — here unchanged — and the written entry still exceeds the budget. -/
def c2Entry : Entry :=
  { instruction := "i".data, input := List.replicate 40 'a', output := List.replicate 200 'b' }

set_option maxRecDepth 8000 in
/-- C2 counterexample: for this entry the truncation case writes an entry
whose combined input+output token count (241) still exceeds
`max_tokens = 30`. -/
theorem C2_counterexample :
    processEntry charTok 30 80 c2Entry = [c2Entry] ∧
    (30 : Int) < (token_length_of charTok (c2Entry.input ++ '\n' :: c2Entry.output) : Int) := by
  decide

/-- C2 (amended): an over-budget entry is either split into one sub-example
per qualifying paragraph (when there are at least two) or token-wise
truncated; in the truncation case the written entry's combined token count
is at most `max_tokens` *provided* the input leaves a positive allowance
(`max_tokens - input_tokens - 1 > 20`); when the allowance is ≤ 20 the
output is cut to a 1000-character prefix with no token-count guarantee.
The abstract tokenizer is assumed additive over concatenation, with
single-token newline and decode/encode round-trip on prefixes of the
output's encoding (all hold for e.g. a character tokenizer). -/
theorem C2_amended_over_budget_handling (tok : Tokenizer) (max_tokens : Int)
    (min_para_chars : Nat) (e : Entry)
    (hadd : ∀ a b, tok.encode (a ++ b) = tok.encode a ++ tok.encode b)
    (hnl : (tok.encode ['\n']).length = 1)
    (hrt : ∀ l, l <+: tok.encode e.output → tok.encode (tok.decode l) = l)
    (hover : max_tokens < (token_length_of tok (e.input ++ '\n' :: e.output) : Int)) :
    (2 ≤ (paragraphs e.output min_para_chars).length →
      processEntry tok max_tokens min_para_chars e =
        (paragraphs e.output min_para_chars).map
          (fun p => { instruction := e.instruction, input := e.input, output := p })) ∧
    ((paragraphs e.output min_para_chars).length < 2 →
      processEntry tok max_tokens min_para_chars e =
        [{ e with output := truncate_output_tokenwise tok e.input e.output max_tokens }] ∧
      (20 < max_tokens - (token_length_of tok e.input : Int) - 1 →
        (token_length_of tok
            (e.input ++ '\n' :: truncate_output_tokenwise tok e.input e.output max_tokens) : Int)
          ≤ max_tokens)) := by
  have hnle : ¬ ((token_length_of tok (e.input ++ '\n' :: e.output) : Int) ≤ max_tokens) :=
    not_le.mpr hover
  have hsplit : ∀ out', token_length_of tok (e.input ++ '\n' :: out')
      = token_length_of tok e.input + (tok.encode ['\n']).length + (tok.encode out').length := by
    intro out'
    show (tok.encode (e.input ++ ('\n' :: out'))).length = _
    rw [show ('\n' :: out') = ['\n'] ++ out' from rfl, hadd, hadd]
    simp [token_length_of]
    omega
  constructor
  · intro hp
    simp only [processEntry]
    rw [if_neg hnle, if_pos hp]
  · intro hp
    have h2 : ¬ (2 ≤ (paragraphs e.output min_para_chars).length) := by omega
    refine ⟨by simp only [processEntry]; rw [if_neg hnle, if_neg h2], ?_⟩
    intro hallow
    have hna : ¬ (max_tokens - (token_length_of tok e.input : Int) - 1 ≤ 20) := by omega
    simp only [truncate_output_tokenwise]
    rw [if_neg hna]
    by_cases hlen : ((tok.encode e.output).length : Int)
        ≤ max_tokens - (token_length_of tok e.input : Int) - 1
    · rw [if_pos hlen]
      rw [hsplit]
      push_cast
      omega
    · rw [if_neg hlen]
      have henc := hrt ((tok.encode e.output).take
        (max_tokens - (token_length_of tok e.input : Int) - 1).toNat) (List.take_prefix _ _)
      rw [hsplit, token_length_of] at *
      rw [henc]
      simp only [List.length_take]
      push_cast
      omega

def c2wEntry : Entry :=
  { instruction := "i".data, input := "abcde".data, output := List.replicate 40 'b' }

theorem C2_witness :
    processEntry charTok 30 80 c2wEntry =
      [{ c2wEntry with
          output := truncate_output_tokenwise charTok c2wEntry.input c2wEntry.output 30 }] ∧
    (token_length_of charTok (c2wEntry.input ++ '\n' ::
        truncate_output_tokenwise charTok c2wEntry.input c2wEntry.output 30) : Int) ≤ 30 := by
  have h := (C2_amended_over_budget_handling charTok 30 80 c2wEntry charTok_additive
    (by decide) (fun l hl => charTok_roundtrip _ _ hl) (by decide)).2 (by decide)
  exact ⟨h.1, h.2 (by decide)⟩

/-! Invariants of the dedupe/cap loop. -/

theorem capStep_inv {κ : Type} [DecidableEq κ] (sigN : Nat) (keyFn : Json → κ)
    (cap : Nat) (st : CapState κ) (obj : Json)
    (hs : SeenInv sigN st) (hc : CntInv keyFn st) (hb : CapLeInv cap st) :
    SeenInv sigN (capStep sigN keyFn cap st obj).1 ∧
    CntInv keyFn (capStep sigN keyFn cap st obj).1 ∧
    CapLeInv cap (capStep sigN keyFn cap st obj).1 := by
  by_cases hcr : st.crashed
  · simp only [capStep, if_pos hcr]
    exact ⟨hs, hc, hb⟩
  cases hgi : getStrOr obj "input".data [] with
  | none =>
    simp only [capStep, if_neg hcr, hgi]
    exact ⟨hs, hc, hb⟩
  | some inp =>
    cases hgo : getStrOr obj "output".data [] with
    | none =>
      simp only [capStep, if_neg hcr, hgi, hgo]
      exact ⟨hs, hc, hb⟩
    | some out =>
      by_cases hmem : sig sigN inp out ∈ st.seen
      · simp only [capStep, if_neg hcr, hgi, hgo, if_pos hmem]
        exact ⟨hs, hc, hb⟩
      by_cases hcap : cap ≤ st.counts (keyFn obj)
      · simp only [capStep, if_neg hcr, hgi, hgo, if_neg hmem, if_pos hcap]
        exact ⟨hs, hc, hb⟩
      simp only [capStep, if_neg hcr, hgi, hgo, if_neg hmem, if_neg hcap]
      refine ⟨?_, ?_, ?_⟩
      · intro s
        simp only [List.mem_cons]
        constructor
        · rintro (rfl | hmem')
          · exact ⟨obj, by simp, by simp [recordSig, hgi, hgo]⟩
          · obtain ⟨w, hw, hrs⟩ := (hs s).mp hmem'
            exact ⟨w, by simp [hw], hrs⟩
        · rintro ⟨w, hw, hrs⟩
          rcases List.mem_append.mp hw with hw' | hw'
          · exact Or.inr ((hs s).mpr ⟨w, hw', hrs⟩)
          · left
            have hwe : w = obj := by simpa using hw'
            subst hwe
            rw [recordSig, hgi, hgo] at hrs
            exact (Option.some.injEq _ _ ▸ hrs).symm
      · intro k
        by_cases hk : k = keyFn obj
        · subst hk
          simp only [if_pos rfl, keyCount, List.countP_append, List.countP_cons,
            List.countP_nil]
          rw [hc (keyFn obj)]
          simp [keyCount]
        · simp only [if_neg hk, keyCount, List.countP_append, List.countP_cons,
            List.countP_nil]
          rw [hc k]
          have : decide (keyFn obj = k) = false := by
            simp
            exact fun he => hk he.symm
          simp [keyCount, this]
      · intro k
        by_cases hk : k = keyFn obj
        · subst hk
          simp only [if_pos rfl]
          have := hb (keyFn obj)
          simp only [ite_true, if_pos rfl]
          omega
        · simp only [if_neg hk]
          exact hb k

theorem capRun_inv {κ : Type} [DecidableEq κ] (sigN : Nat) (keyFn : Json → κ)
    (cap : Nat) (objs : List Json) :
    SeenInv sigN (capRun sigN keyFn cap objs) ∧
    CntInv keyFn (capRun sigN keyFn cap objs) ∧
    CapLeInv cap (capRun sigN keyFn cap objs) := by
  suffices h : ∀ st : CapState κ, SeenInv sigN st → CntInv keyFn st → CapLeInv cap st →
      SeenInv sigN (objs.foldl (fun st obj => (capStep sigN keyFn cap st obj).1) st) ∧
      CntInv keyFn (objs.foldl (fun st obj => (capStep sigN keyFn cap st obj).1) st) ∧
      CapLeInv cap (objs.foldl (fun st obj => (capStep sigN keyFn cap st obj).1) st) by
    exact h (initCapState κ) (fun s => by simp [initCapState, SeenInv])
      (fun k => by simp [initCapState, CntInv, keyCount])
      (fun k => by simp [initCapState, CapLeInv])
  induction objs with
  | nil => intro st h1 h2 h3; exact ⟨h1, h2, h3⟩
  | cons o os ih =>
    intro st h1 h2 h3
    obtain ⟨g1, g2, g3⟩ := capStep_inv sigN keyFn cap st o h1 h2 h3
    exact ih _ g1 g2 g3

/-- Two records with equal `input` and with `output`s that agree on their
first 300 characters but differ at position 300: `dedupe.py` treats the
second as a duplicate of the first. -/
def c3e1 : Json :=
  .obj [("input".data, .str "i".data), ("output".data, .str (List.replicate 300 'a' ++ ['b']))]

def c3e2 : Json :=
  .obj [("input".data, .str "i".data), ("output".data, .str (List.replicate 300 'a' ++ ['c']))]

set_option maxRecDepth 10000 in
/-- C3 counterexample: after `dedupe.py` writes `c3e1`, the record `c3e2`
is skipped as a duplicate even though its (input, output) pair differs from
that of every previously written record. -/
theorem C3_counterexample :
    (capStep 300 dedupeKeyFn CAP (dedupeRun [c3e1]) c3e2).2 = Disposition.dupSkip ∧
    (dedupeRun [c3e1]).written = [c3e1] ∧
    c3e1.get "output".data ≠ c3e2.get "output".data := by
  decide

/-- C3 (amended): in both dedupe scripts a record is skipped as a duplicate
if and only if a previously *written* record had the same truncated
signature — `input[:n] + "||" + output[:n]` with `n = 300` (`dedupe.py`)
or `n = 400` (`dedupe_and_cap_per_movie.py`), SHA-256 collisions aside;
records may therefore be dropped although their full (input, output) pairs
differ beyond the prefix.  Stated for any signature length, key extractor
and cap, covering both scripts. -/
theorem C3_amended_prefix_signature_dedupe {κ : Type} [DecidableEq κ] (sigN : Nat)
    (keyFn : Json → κ) (cap : Nat) (objs : List Json) (obj : Json)
    (inp out : List Char)
    (hi : getStrOr obj "input".data [] = some inp)
    (ho : getStrOr obj "output".data [] = some out)
    (hnc : (capRun sigN keyFn cap objs).crashed = false) :
    (capStep sigN keyFn cap (capRun sigN keyFn cap objs) obj).2 = Disposition.dupSkip ↔
      ∃ w ∈ (capRun sigN keyFn cap objs).written,
        recordSig sigN w = some (sig sigN inp out) := by
  have hs := (capRun_inv sigN keyFn cap objs).1
  set st := capRun sigN keyFn cap objs with hst
  have hcr : ¬ st.crashed = true := by rw [hnc]; simp
  by_cases hmem : sig sigN inp out ∈ st.seen
  · constructor
    · intro _
      exact (hs _).mp hmem
    · intro _
      simp only [capStep, if_neg hcr, hi, ho, if_pos hmem]
  · constructor
    · intro hd
      exfalso
      by_cases hcap : cap ≤ st.counts (keyFn obj) <;>
        simp [capStep, if_neg hcr, hi, ho, if_neg hmem, hcap] at hd
    · intro hex
      exact absurd ((hs _).mpr hex) hmem

set_option maxRecDepth 10000 in
theorem C3_witness :
    (capStep 400 perMovieKeyFn CAP (capRun 400 perMovieKeyFn CAP [c3e1]) c3e1).2 =
      Disposition.dupSkip := by
  have h := C3_amended_prefix_signature_dedupe 400 perMovieKeyFn CAP [c3e1] c3e1
    "i".data (List.replicate 300 'a' ++ ['b'])
    (by decide) (by decide) (by decide)
  refine h.mpr ?_
  refine ⟨c3e1, by decide, by decide⟩

/-- C4: at most `CAP = 1000` examples are written per extracted movie key,
in both dedupe scripts, and once a key's counter has reached the cap no
further record with that key is ever written. -/
theorem C4_per_movie_cap :
    (∀ (objs : List Json) (key : List Char),
      keyCount perMovieKeyFn key (perMovieRun objs).written ≤ CAP) ∧
    (∀ (objs : List Json) (key : Json),
      keyCount dedupeKeyFn key (dedupeRun objs).written ≤ CAP) ∧
    (∀ (st : CapState (List Char)) (obj : Json), CAP ≤ st.counts (perMovieKeyFn obj) →
      (capStep 400 perMovieKeyFn CAP st obj).2 ≠ Disposition.written) ∧
    (∀ (st : CapState Json) (obj : Json), CAP ≤ st.counts (dedupeKeyFn obj) →
      (capStep 300 dedupeKeyFn CAP st obj).2 ≠ Disposition.written) := by
  have hgen : ∀ {κ : Type} [DecidableEq κ] (sigN : Nat) (keyFn : Json → κ)
      (st : CapState κ) (obj : Json), CAP ≤ st.counts (keyFn obj) →
      (capStep sigN keyFn CAP st obj).2 ≠ Disposition.written := by
    intro κ _ sigN keyFn st obj hcap
    by_cases hcr : st.crashed
    · simp [capStep, if_pos hcr]
    cases hgi : getStrOr obj "input".data [] with
    | none => simp [capStep, if_neg hcr, hgi]
    | some inp =>
      cases hgo : getStrOr obj "output".data [] with
      | none => simp [capStep, if_neg hcr, hgi, hgo]
      | some out =>
        by_cases hmem : sig sigN inp out ∈ st.seen
        · simp [capStep, if_neg hcr, hgi, hgo, if_pos hmem]
        · simp [capStep, if_neg hcr, hgi, hgo, if_neg hmem, if_pos hcap]
  refine ⟨?_, ?_, fun st obj h => hgen 400 perMovieKeyFn st obj h,
    fun st obj h => hgen 300 dedupeKeyFn st obj h⟩
  · intro objs key
    have h := capRun_inv 400 perMovieKeyFn CAP objs
    rw [perMovieRun, ← h.2.1 key]
    exact h.2.2 key
  · intro objs key
    have h := capRun_inv 300 dedupeKeyFn CAP objs
    rw [dedupeRun, ← h.2.1 key]
    exact h.2.2 key

theorem C4_witness :
    (capStep 400 perMovieKeyFn CAP
        { seen := [], counts := fun _ => CAP, written := [], crashed := false }
        (.obj [])).2 ≠ Disposition.written :=
  C4_per_movie_cap.2.2.1
    { seen := [], counts := fun _ => CAP, written := [], crashed := false }
    (.obj []) (le_refl CAP)

/-! Helper lemmas about dict lookup and assignment. -/

theorem jGet_append (fs : List (List Char × Json)) :
    ∀ (gs : List (List Char × Json)) (k : List Char),
      jGet (fs ++ gs) k = (jGet gs k).or (jGet fs k) := by
  induction fs with
  | nil => intro gs k; simp [jGet]
  | cons kv fs ih =>
    intro gs k
    simp only [List.cons_append, jGet, List.append_eq]
    rw [ih]
    cases h1 : jGet gs k <;> cases h2 : jGet fs k <;> simp [Option.or]

theorem jGet_map_set (fs : List (List Char × Json)) (k : List Char) (v : Json) :
    jGet (fs.map (fun kv => if kv.1 = k then (k, v) else kv)) k =
      if fs.any (fun kv => decide (kv.1 = k)) then some v else none := by
  induction fs with
  | nil => simp [jGet]
  | cons kv fs ih =>
    simp only [List.map_cons, jGet, ih, List.any_cons]
    by_cases hk : kv.1 = k
    · by_cases ha : fs.any (fun kv => decide (kv.1 = k)) <;> simp [hk, ha]
    · by_cases ha : fs.any (fun kv => decide (kv.1 = k)) <;> simp [hk, ha]

theorem jGet_map_set_ne (fs : List (List Char × Json)) (k : List Char) (v : Json)
    (k' : List Char) (h : k' ≠ k) :
    jGet (fs.map (fun kv => if kv.1 = k then (k, v) else kv)) k' = jGet fs k' := by
  induction fs with
  | nil => simp
  | cons kv fs ih =>
    simp only [List.map_cons, jGet, ih]
    by_cases hk : kv.1 = k
    · simp only [if_pos hk]
      cases jGet fs k' <;> simp [hk, fun he => h (Eq.symm he), Ne.symm h]
    · simp [hk]

theorem jGet_setField_self (fs : List (List Char × Json)) (k : List Char) (v : Json) :
    jGet (setField fs k v) k = some v := by
  unfold setField
  by_cases h : fs.any (fun kv => decide (kv.1 = k))
  · rw [if_pos h, jGet_map_set, if_pos h]
  · rw [if_neg h, jGet_append]
    simp [jGet]

theorem jGet_setField_ne (fs : List (List Char × Json)) (k : List Char) (v : Json)
    (k' : List Char) (h : k' ≠ k) :
    jGet (setField fs k v) k' = jGet fs k' := by
  unfold setField
  by_cases ha : fs.any (fun kv => decide (kv.1 = k))
  · rw [if_pos ha, jGet_map_set_ne _ _ _ _ h]
  · rw [if_neg ha, jGet_append]
    simp [jGet, fun he => h (Eq.symm he), Ne.symm h]

/-- Each step of the split-writing loop only ever adds records whose
`output` was rewritten to `rstripped ++ STOP`. -/
theorem trainValStep_mem (valIdx : Nat → Bool) (st : TrainValState) (line : List Char)
    (j : Json)
    (hj : j ∈ (trainValStep valIdx st line).train ++ (trainValStep valIdx st line).val) :
    j ∈ st.train ++ st.val ∨
    ∃ fs out, json_loads (pyRStripNl line) = some (.obj fs) ∧
      (jGet fs "output".data).getD (.str []) = .str out ∧
      j = jSet (.obj fs) "output".data (.str (pyRStrip out ++ STOP)) := by
  unfold trainValStep at hj
  dsimp only at hj
  repeat' split at hj
  all_goals
    first
    | exact Or.inl hj
    | (rcases List.mem_append.mp hj with hmem | hmem
       · first
         | exact Or.inl (List.mem_append.mpr (Or.inl hmem))
         | (rcases List.mem_append.mp hmem with hmem2 | hmem2
            · exact Or.inl (List.mem_append.mpr (Or.inl hmem2))
            · exact Or.inr ⟨_, _, by assumption, by assumption, by simpa using hmem2⟩)
       · first
         | exact Or.inl (List.mem_append.mpr (Or.inr hmem))
         | (rcases List.mem_append.mp hmem with hmem2 | hmem2
            · exact Or.inl (List.mem_append.mpr (Or.inr hmem2))
            · exact Or.inr ⟨_, _, by assumption, by assumption, by simpa using hmem2⟩))

/-- C8: every example written by `create_train_val.py` to the train file or
the validation file has a string `output` field ending with the stop marker
`"\n<|end_of_scene|>"` (the marker is appended to the rstripped output of
every written example). -/
theorem C8_stop_marker_appended (valIdx : Nat → Bool) (lines : List (List Char)) :
    ∀ j ∈ (trainValRun valIdx lines).train ++ (trainValRun valIdx lines).val,
      (outputField j).isSome = true ∧ STOP <:+ (outputField j).getD [] := by
  suffices h : ∀ st : TrainValState,
      (∀ j ∈ st.train ++ st.val, (outputField j).isSome = true ∧ STOP <:+ (outputField j).getD []) →
      ∀ j ∈ (lines.foldl (trainValStep valIdx) st).train ++
            (lines.foldl (trainValStep valIdx) st).val,
        (outputField j).isSome = true ∧ STOP <:+ (outputField j).getD [] by
    exact h _ (by simp)
  induction lines with
  | nil => intro st hst; exact hst
  | cons line rest ih =>
    intro st hst
    refine ih _ ?_
    intro j hj
    rcases trainValStep_mem valIdx st line j hj with hmem | ⟨fs, out, _, _, rfl⟩
    · exact hst j hmem
    · have hset : outputField (jSet (.obj fs) "output".data
          (.str (pyRStrip out ++ STOP))) = some (pyRStrip out ++ STOP) := by
        simp [outputField, jSet, Json.get, jGet_setField_self]
      rw [hset]
      exact ⟨rfl, by simpa using List.suffix_append (pyRStrip out) STOP⟩

theorem C8_witness :
    (outputField (.obj [("output".data, .str ("sc".data ++ STOP))])).isSome = true ∧
    STOP <:+ (outputField (.obj [("output".data, .str ("sc".data ++ STOP))])).getD [] :=
  C8_stop_marker_appended (fun _ => false)
    [json_dumps (.obj [("output".data, .str "sc".data)])]
    (.obj [("output".data, .str ("sc".data ++ STOP))]) (by decide)

/-- A successful query attempt produces a row carrying the queried title. -/
theorem attempt_title (respond : List Char → Option (List Char)) (t : List Char)
    (row : OutRow) (h : attempt respond t = some row) : row.title = t := by
  unfold attempt at h
  dsimp only at h
  split at h
  · cases h
  split at h
  case h_1 fs hfs =>
    split at h
    · cases h
    · injection h with h
      exact congrArg OutRow.title h.symm
  · cases h
  · cases h

/-- C9: a raw script file whose derived title already sits in the first CSV
column triggers no model query and no appended row; a title not yet present
gets exactly one appended row (with the MovieTitle/Genre/Theme/Tone/Length
fields) when a query for it succeeds, and never more than one row in total. -/
theorem C9_skip_processed_single_row (respond : List Char → Option (List Char))
    (ip : List (List Char)) (files : List (List Char)) :
    (∀ T ∈ ip, T ∉ (runScript respond ip files).queried ∧
      ∀ r ∈ (runScript respond ip files).rows, r.title ≠ T) ∧
    ((runScript respond ip files).rows.map OutRow.title).Nodup ∧
    (∀ (st : ScriptState) (f : List Char) (row : OutRow),
      derivedTitle f ∉ st.processed → attempt respond (derivedTitle f) = some row →
      (scriptStep respond st f).rows = st.rows ++ [row]) := by
  have hstep : ∀ (st : ScriptState) (f : List Char),
      (∀ T ∈ ip, T ∈ st.processed) →
      (∀ T ∈ ip, T ∉ st.queried) →
      (∀ r ∈ st.rows, r.title ∈ st.processed ∧ r.title ∉ ip) →
      (st.rows.map OutRow.title).Nodup →
      (∀ T ∈ ip, T ∈ (scriptStep respond st f).processed) ∧
      (∀ T ∈ ip, T ∉ (scriptStep respond st f).queried) ∧
      (∀ r ∈ (scriptStep respond st f).rows,
        r.title ∈ (scriptStep respond st f).processed ∧ r.title ∉ ip) ∧
      ((scriptStep respond st f).rows.map OutRow.title).Nodup := by
    intro st f h1 h2 h3 h4
    by_cases hmem : derivedTitle f ∈ st.processed
    · simp only [scriptStep, if_pos hmem]
      exact ⟨h1, h2, h3, h4⟩
    have hTne : ∀ T ∈ ip, T ≠ derivedTitle f := by
      intro T hT he
      exact hmem (he ▸ h1 T hT)
    cases hat : attempt respond (derivedTitle f) with
    | none =>
      simp only [scriptStep, if_neg hmem, hat]
      refine ⟨h1, ?_, h3, h4⟩
      intro T hT hin
      rcases List.mem_append.mp hin with hin | hin
      · exact h2 T hT hin
      · exact hTne T hT (by simpa using hin)
    | some row =>
      have hrt : row.title = derivedTitle f := attempt_title respond _ row hat
      simp only [scriptStep, if_neg hmem, hat]
      refine ⟨?_, ?_, ?_, ?_⟩
      · intro T hT
        exact List.mem_append.mpr (Or.inl (h1 T hT))
      · intro T hT hin
        rcases List.mem_append.mp hin with hin | hin
        · exact h2 T hT hin
        · exact hTne T hT (by simpa using hin)
      · intro r hr
        rcases List.mem_append.mp hr with hr | hr
        · exact ⟨List.mem_append.mpr (Or.inl (h3 r hr).1), (h3 r hr).2⟩
        · have : r = row := by simpa using hr
          subst this
          rw [hrt]
          refine ⟨List.mem_append.mpr (Or.inr (by simp)), fun hin => ?_⟩
          exact hmem (h1 _ hin)
      · rw [List.map_append]
        rw [List.nodup_append]
        refine ⟨h4, by simp, ?_⟩
        intro t ht ht'
        simp only [List.map_cons, List.map_nil, List.mem_singleton] at ht'
        subst ht'
        obtain ⟨r, hr, hre⟩ := List.mem_map.mp ht
        have := (h3 r hr).1
        rw [hre, hrt] at this
        exact hmem this
  have hinv : ∀ (fl : List (List Char)) (st : ScriptState),
      (∀ T ∈ ip, T ∈ st.processed) →
      (∀ T ∈ ip, T ∉ st.queried) →
      (∀ r ∈ st.rows, r.title ∈ st.processed ∧ r.title ∉ ip) →
      (st.rows.map OutRow.title).Nodup →
      (∀ T ∈ ip, T ∉ (fl.foldl (scriptStep respond) st).queried) ∧
      (∀ r ∈ (fl.foldl (scriptStep respond) st).rows, r.title ∉ ip) ∧
      ((fl.foldl (scriptStep respond) st).rows.map OutRow.title).Nodup := by
    intro fl
    induction fl with
    | nil =>
      intro st h1 h2 h3 h4
      exact ⟨h2, fun r hr => (h3 r hr).2, h4⟩
    | cons f fl ih =>
      intro st h1 h2 h3 h4
      obtain ⟨g1, g2, g3, g4⟩ := hstep st f h1 h2 h3 h4
      exact ih _ g1 g2 g3 g4
  have hrun := hinv files { processed := ip, rows := [], queried := [] }
    (fun T hT => hT) (fun T _ hT => by simp at hT) (fun r hr => by simp at hr) (by simp)
  refine ⟨fun T hT => ⟨hrun.1 T hT, fun r hr he => (hrun.2.1 r hr) (he ▸ hT)⟩, hrun.2.2, ?_⟩
  intro st f row hnp hat
  simp only [scriptStep, if_neg hnp, hat]

theorem C9_witness :
    (scriptStep (fun _ => some "\x7b\"genre\": \"G\"\x7d".data)
        { processed := [], rows := [], queried := [] } "A_1.txt".data).rows =
      [] ++ [{ title := "A".data, genre := "G".data, theme := "N/A".data,
               tone := "N/A".data, length := 0 }] := by
  have h := (C9_skip_processed_single_row (fun _ => some "\x7b\"genre\": \"G\"\x7d".data)
    [] []).2.2 { processed := [], rows := [], queried := [] } "A_1.txt".data
    { title := "A".data, genre := "G".data, theme := "N/A".data,
      tone := "N/A".data, length := 0 }
    (by simp) (by decide)
  exact h

/-- The genre-only fallback, when it fires, always yields a `__GENRE_`-key. -/
theorem genreFallback_shape (o : Json) (k : List Char) (h : genreFallback o = some k) :
    ∃ g, k = "__GENRE_".data ++ pyStr g := by
  unfold genreFallback at h
  dsimp only at h
  repeat' split at h
  all_goals try cases h
  all_goals exact ⟨_, rfl⟩

/-- The parsed-input block, when it returns, yields a stripped `str()` of
some field value or one of the genre/tone fallback keys. -/
theorem parsedBlock_shape (inp : List Char) (k : List Char) (h : parsedBlock inp = some k) :
    (∃ v, k = pyStrip (pyStr v)) ∨
    (∃ g t, k = "__GENRE_".data ++ pyStr g ++ "__TONE_".data ++ pyStr t) ∨
    (∃ g, k = "__GENRE_".data ++ pyStr g) := by
  unfold parsedBlock at h
  dsimp only at h
  repeat' split at h
  all_goals try cases h
  all_goals first | exact Or.inl ⟨_, rfl⟩ | exact Or.inr (Or.inl ⟨_, _, rfl⟩) | exact Or.inr (Or.inr ⟨_, rfl⟩)

/-- C10: `extract_movie_key` is total — for every JSON value it returns
a string, which is always a stripped `str()` of an identifier field, a
genre(/tone) fallback key, or the literal `"UNKNOWN_MOVIE"` — and the
direct identifier fields are preferred in the listed order (`source_file`
first, then `movie_title`, …) over the parsed-input and fallback routes. -/
theorem C10_extract_movie_key_total_and_ordered :
    (∀ (fs : List (List Char × Json)) (v : Json),
      jGet fs "source_file".data = some v → jTruthy v = true →
      extract_movie_key (.obj fs) = pyStrip (pyStr v)) ∧
    (∀ (fs : List (List Char × Json)) (v : Json),
      (∀ w, jGet fs "source_file".data = some w → jTruthy w = false) →
      jGet fs "movie_title".data = some v → jTruthy v = true →
      extract_movie_key (.obj fs) = pyStrip (pyStr v)) ∧
    (∀ obj : Json,
      (∃ v, extract_movie_key obj = pyStrip (pyStr v)) ∨
      (∃ g t, extract_movie_key obj = "__GENRE_".data ++ pyStr g ++ "__TONE_".data ++ pyStr t) ∨
      (∃ g, extract_movie_key obj = "__GENRE_".data ++ pyStr g) ∨
      extract_movie_key obj = "UNKNOWN_MOVIE".data) := by
  refine ⟨?_, ?_, ?_⟩
  · intro fs v hget htr
    simp [extract_movie_key, firstTruthyField, hget, htr]
  · intro fs v hsf hget htr
    simp only [extract_movie_key, firstTruthyField]
    cases hw : jGet fs "source_file".data with
    | none => simp [hget, htr]
    | some w =>
      have hwf := hsf w hw
      simp [hwf, hget, htr]
  · intro obj
    cases obj with
    | obj fs =>
      unfold extract_movie_key
      dsimp only
      split
      · exact Or.inl ⟨_, rfl⟩
      split
      · rename_i k hk
        split at hk
        · rcases parsedBlock_shape _ _ hk with h | h | h
          · exact Or.inl h
          · exact Or.inr (Or.inl h)
          · exact Or.inr (Or.inr (Or.inl h))
        · cases hk
      · cases hg : genreFallback (.obj fs) with
        | some k =>
          obtain ⟨g, hgk⟩ := genreFallback_shape _ _ hg
          exact Or.inr (Or.inr (Or.inl ⟨g, hgk⟩))
        | none =>
          exact Or.inr (Or.inr (Or.inr rfl))
    | null =>
      exact Or.inr (Or.inr (Or.inr (by simp [extract_movie_key, genreFallback])))
    | bool b =>
      exact Or.inr (Or.inr (Or.inr (by simp [extract_movie_key, genreFallback])))
    | num n =>
      exact Or.inr (Or.inr (Or.inr (by simp [extract_movie_key, genreFallback])))
    | str s =>
      exact Or.inr (Or.inr (Or.inr (by simp [extract_movie_key, genreFallback])))
    | arr xs =>
      exact Or.inr (Or.inr (Or.inr (by simp [extract_movie_key, genreFallback])))

theorem C10_witness :
    extract_movie_key (.obj [("source_file".data, .str "x.txt".data)]) =
      pyStrip (pyStr (.str "x.txt".data)) :=
  C10_extract_movie_key_total_and_ordered.1 [("source_file".data, .str "x.txt".data)]
    (.str "x.txt".data) (by decide) (by decide)

/-- A record that already carries movie attribution (`source_file` is set)
whose output text is nevertheless found in a different raw file. -/
def bfObj : Json :=
  .obj [("source_file".data, .str "x.txt".data),
        ("input".data, .str "\x7b\x7d".data),
        ("output".data, .str "hello world scene".data)]

def bfFiles : List (List Char × List Char) :=
  [("y.txt".data, "aaa hello world scene bbb".data)]

/-- C5 counterexample: `backfill.py` does not leave already-attributed
examples unchanged — it overwrites the existing `source_file` ("x.txt")
with the located file's name ("y.txt"). -/
theorem C5_counterexample :
    bfObj.get "source_file".data = some (.str "x.txt".data) ∧
    (backfillRun (fun _ _ => none) bfFiles 120 [json_dumps bfObj]).out.map
        (fun j => j.get "source_file".data) = [some (.str "y.txt".data)] := by
  decide

/-- Whenever `inject_source` succeeds on a dict record, the written record's
`source_file` is the located file's name. -/
theorem inject_source_get_source_file (fs : List (List Char × Json)) (fname : List Char)
    (obj' : Json) (h : inject_source (.obj fs) fname = some obj') :
    obj'.get "source_file".data = some (.str fname) := by
  have hne : "source_file".data ≠ "input".data := by decide
  unfold inject_source at h
  dsimp only at h
  repeat' split at h
  all_goals try cases h
  all_goals
    simp [Json.get, jSet, jGet_setField_self, jGet_setField_ne _ _ _ _ hne]

/-- C5 (amended): `backfill.py` processes every example with a non-blank
output regardless of existing attribution: when a raw file is located, the
top-level `source_file` is set to that file's name — overwriting any
existing value — while a `movie_title` derived from the filename is
injected into the `input` JSON only when that parses to an object lacking a
truthy `movie_title` (in which case the input is left untouched apart from
re-serialisation; with a truthy `movie_title` only `source_file` changes).
Examples with blank output, or for which no file is found, are written
unchanged. -/
theorem C5_amended_backfill_injection (fuzzy : List Char → List (List Char) → Option (List Char))
    (files : List (List Char × List Char)) (sl : Nat) (st : BackfillState)
    (line : List Char) (obj : Json) (outtext : List Char)
    (hnc : st.crashed = false)
    (hparse : json_loads line = some obj)
    (hout : obj.get "output".data = some (.str outtext)) :
    ((pyStrip outtext).isEmpty = true →
      backfillStep fuzzy files sl st line = { st with out := st.out ++ [obj] }) ∧
    ((pyStrip outtext).isEmpty = false →
      find_file_by_substring fuzzy files ((pyStrip outtext).take sl) = none →
      backfillStep fuzzy files sl st line = { st with out := st.out ++ [obj] }) ∧
    (∀ fname obj', (pyStrip outtext).isEmpty = false →
      find_file_by_substring fuzzy files ((pyStrip outtext).take sl) = some fname →
      inject_source obj fname = some obj' →
      backfillStep fuzzy files sl st line = { st with out := st.out ++ [obj'] } ∧
      obj'.get "source_file".data = some (.str fname)) ∧
    (∀ fname s pfs, obj.get "input".data = some (.str s) →
      json_loads s = some (.obj pfs) →
      jTruthy ((jGet pfs "movie_title".data).getD .null) = true →
      inject_source obj fname = some (jSet obj "source_file".data (.str fname))) := by
  have hne : "source_file".data ≠ "input".data := by decide
  cases obj with
  | obj fs =>
    have hget : jGet fs "output".data = some (.str outtext) := hout
    have hcr : ¬ st.crashed = true := by rw [hnc]; simp
    have hred : backfillStep fuzzy files sl st line = (
          if (pyStrip outtext).isEmpty then { st with out := st.out ++ [Json.obj fs] }
          else
            match find_file_by_substring fuzzy files ((pyStrip outtext).take sl) with
            | some fname =>
              match inject_source (.obj fs) fname with
              | some obj2 => { st with out := st.out ++ [obj2] }
              | none => { st with crashed := true }
            | none => { st with out := st.out ++ [Json.obj fs] }) := by
      have hget2 := hget
      unfold backfillStep
      rw [if_neg hcr, hparse]
      dsimp only
      dsimp only at hget2
      rw [hget2]
      rfl
    refine ⟨?_, ?_, ?_, ?_⟩
    · intro hbl
      rw [hred, if_pos hbl]
    · intro hbl hfind
      rw [hred, if_neg (by rw [hbl]; simp), hfind]
    · intro fname obj' hbl hfind hinj
      refine ⟨?_, inject_source_get_source_file fs fname obj' hinj⟩
      rw [hred, if_neg (by rw [hbl]; simp), hfind]
      dsimp only
      rw [hinj]
    · intro fname s pfs hin hps htr
      have hin' : jGet fs "input".data = some (.str s) := hin
      unfold inject_source
      dsimp only
      have hlook : (Json.get (jSet (.obj fs) "source_file".data (.str fname))
          "input".data).getD (.str []) = .str s := by
        show (jGet (setField fs "source_file".data (.str fname)) "input".data).getD
          (.str []) = .str s
        rw [jGet_setField_ne _ _ _ _ (by decide), hin']
        rfl
      rw [hlook]
      dsimp only
      rw [hps]
      dsimp only
      have htr2 := htr
      dsimp only at htr2
      rw [htr2]
      simp
  | null => cases hout
  | bool b => cases hout
  | num n => cases hout
  | str s => cases hout
  | arr xs => cases hout

theorem C5_witness :
    backfillStep (fun _ _ => none) bfFiles 120
        { out := [], crashed := false } (json_dumps bfObj) =
      { out := ([] : List Json) ++
          [jSet (jSet bfObj "source_file".data (.str "y.txt".data)) "input".data
            (.str (json_dumps (.obj [("movie_title".data, .str "y".data)])))],
        crashed := false } ∧
    (jSet (jSet bfObj "source_file".data (.str "y.txt".data)) "input".data
        (.str (json_dumps (.obj [("movie_title".data, .str "y".data)])))).get
      "source_file".data = some (.str "y.txt".data) := by
  have h := (C5_amended_backfill_injection (fun _ _ => none) bfFiles 120
    { out := [], crashed := false } (json_dumps bfObj) bfObj
    "hello world scene".data rfl (by decide) (by decide)).2.2.1
    "y.txt".data
    (jSet (jSet bfObj "source_file".data (.str "y.txt".data)) "input".data
      (.str (json_dumps (.obj [("movie_title".data, .str "y".data)]))))
    (by decide) (by decide) (by decide)
  exact h

end DreamersAI
